import Mathlib

/-!
# Tiny shell (`tsh.c`): tokenizer and job-control core

A shallow embedding of `parseline`, `eval`, `builtin_cmd`, `waitfg` and the
signal handlers of `tsh.c`, followed by the properties established about them.

Representation of C data:
* a C string is the list of its characters before the terminating NUL;
* a pointer into the NUL-terminated line buffer is the list of characters from
  that position up to (not including) the terminator, so `*buf == 0` is
  `buf = []` and `buf++` is `List.tail`;
* `delim`, the result of `strchr (buf, c)`, is the offset `delim - buf`
  (`none` for `NULL`).
-/

namespace Tsh

/-! ## The tokenizer `parseline` -/

/-- Line 57: max line size. -/
def MAXLINE : Nat := 1024

/-- Line 59: max args on a command line. -/
def MAXARGS : Nat := 128

/-- The NUL character that terminates a C string. -/
def NUL : Char := Char.ofNat 0

/-- The single-quote character. -/
def QUOTE : Char := Char.ofNat 39

/-- The characters of the C string stored in `s`: those before the first NUL. -/
def cstr : List Char → List Char
  | [] => []
  | c :: cs => if c = NUL then [] else c :: cstr cs

/-- Library `strchr (buf, c)` for `c ≠ 0`: offset of the first `c` in the
string at `buf`, `none` (NULL) when the terminator is reached first. -/
def strchr : List Char → Char → Option Nat
  | [], _ => none
  | x :: xs, c => if x = c then some 0 else (strchr xs c).map (fun i => i + 1)

/-- Lines 323-324 and 343-344: `while (*buf && (*buf == ' ')) buf++;`. -/
def skipSpaces : List Char → List Char
  | [] => []
  | c :: cs => if c = ' ' then skipSpaces cs else c :: cs

/-- Lines 328-336 and 346-354: after a quote, step over it and look for the
closing quote; otherwise look for the next space.  Returns the new `buf` and
`delim`. -/
def scanDelim (buf : List Char) : List Char × Option Nat :=
  match buf with
  | [] => ([], none)
  | c :: rest => if c = QUOTE then (rest, strchr rest QUOTE) else (c :: rest, strchr (c :: rest) ' ')

/-- Lines 338-355: the `while (delim)` loop.  `argv` holds `argv[0 .. argc)`;
storing `buf` in `argv[argc++]` and writing NUL at `delim` makes that entry the
string `buf.take d`.  The first argument bounds the number of iterations;
`none` means the bound was reached. -/
def parseLoop : Nat → List Char → Option Nat → List (List Char) → Option (List (List Char))
  | _, _, none, argv => some argv
  | 0, _, some _, _ => none
  | fuel + 1, buf, some d, argv =>
    let argv1 := argv ++ [buf.take d]
    let buf1 := skipSpaces (buf.drop (d + 1))
    parseLoop fuel (scanDelim buf1).1 (scanDelim buf1).2 argv1

/-- Lines 321-356 of `parseline`: the argument strings `argv[0 .. argc)` at the
point where `argv[argc] = NULL` is stored.  `none` is undefined behaviour: an
empty line (`buf[strlen (buf) - 1]` is `array[-1]`) or a line that does not fit
in `array[MAXLINE]` together with its terminator. -/
def parseTokens (cmdline : List Char) : Option (List (List Char)) :=
  let s := cstr cmdline
  if s.length = 0 ∨ MAXLINE ≤ s.length then none
  else
    let buf0 := skipSpaces (s.dropLast ++ [' '])
    parseLoop (buf0.length + 1) (scanDelim buf0).1 (scanDelim buf0).2 []

/-- Line 362: `*argv[argc - 1] == '&'`, the first character of the last
argument (the terminator when that argument is the empty string). -/
def lastStartsWithAmp (argv : List (List Char)) : Bool :=
  match argv.getLast? with
  | some (c :: _) => c == '&'
  | _ => false

/-- Lines 358-366: the return value (non-zero is `true`) and the argument
vector up to its NULL entry. -/
def finishParse (argv : List (List Char)) : List (List Char) × Bool :=
  if argv.length = 0 then ([], true)
  else if lastStartsWithAmp argv then (argv.dropLast, true)
  else (argv, false)

/-- The function `parseline (cmdline, argv)`: the argument vector it builds and
the value it returns. -/
def parseline (cmdline : List Char) : Option (List (List Char) × Bool) :=
  (parseTokens cmdline).map finishParse

/-! ## Job control -/

/-- The signals the shell sends with `kill`. -/
inductive Sig
  | SIGINT
  | SIGTSTP
  | SIGCONT
  deriving DecidableEq, Repr

/-- What `waitpid` stores in `wstatus`, as told apart by `WIFSIGNALED` and
`WIFSTOPPED`: normal exit, termination by signal `WTERMSIG`, stop by signal
`WSTOPSIG`. -/
inductive WStatus
  | exited (code : Int)
  | signaled (sig : Int)
  | stopped (sig : Int)
  deriving DecidableEq, Repr

/-- The two job slots. -/
inductive Slot
  | running
  | suspended
  deriving DecidableEq, Repr

/-- A record of one assignment to a job slot made by the main flow: the slot,
the value stored, and whether SIGCHLD was in the signal mask at that moment. -/
structure SlotWrite where
  slot : Slot
  value : Int
  sigchldBlocked : Bool
  deriving DecidableEq, Repr

/-- State of the shell process.
* `g_runningPid`, `g_suspendedPid`: the globals of lines 77 and 79;
* `blocked`: whether SIGCHLD is in the process signal mask;
* `prev`: whether SIGCHLD is in the saved set `prev` (line 83);
* `out`: the strings written to standard output by `printf`, in order;
* `kills`: the calls `kill (pid, sig)` made so far, in order;
* `mainWrites`: history of the assignments to the two slots made outside the
  signal handlers. -/
structure Shell where
  g_runningPid : Int
  g_suspendedPid : Int
  blocked : Bool
  prev : Bool
  out : List String
  kills : List (Int × Sig)
  mainWrites : List SlotWrite
  deriving DecidableEq, Repr

/-- The shell when `main` enters its loop: both slots 0 (lines 77, 79), nothing
printed, no signal sent; the mask is the inherited one. -/
def Shell.init (blocked : Bool) : Shell :=
  ⟨0, 0, blocked, false, [], [], []⟩

/-- One iteration of the loop body of `sigchld_handler`, lines 395-407. -/
def reapOne (st : Shell) (waitID : Int) (wstatus : WStatus) : Shell :=
  let st1 : Shell :=
    match wstatus with
    | .signaled n =>
      { st with out := st.out ++
          ["Job (" ++ toString waitID ++ ") terminated by signal " ++ toString n ++ "\n"] }
    | .stopped n =>
      { st with
          out := st.out ++
            ["Job (" ++ toString waitID ++ ") stopped by signal " ++ toString n ++ "\n"]
          g_suspendedPid := st.g_runningPid }
    | .exited _ => st
  { st1 with g_runningPid := 0 }

/-- The function `sigchld_handler`, lines 382-414.  The second argument is the
sequence of results `(waitID, wstatus)` of the successive calls
`waitpid (-1, &wstatus, WNOHANG|WUNTRACED)`; the loop ends at the first result
that is not positive, or when the sequence ends (no child left to report).
`errno`, saved and restored by the handler, is not part of the state. -/
def sigchld_handler : Shell → List (Int × WStatus) → Shell
  | st, [] => st
  | st, (waitID, wstatus) :: more =>
    if waitID > 0 then sigchld_handler (reapOne st waitID wstatus) more else st

/-- The call `kill (pid, sig)`. -/
def kill (st : Shell) (pid : Int) (sig : Sig) : Shell :=
  { st with kills := st.kills ++ [(pid, sig)] }

/-- The function `sigint_handler`, lines 421-432. -/
def sigint_handler (st : Shell) : Shell :=
  if st.g_runningPid > 0 then kill st (-st.g_runningPid) Sig.SIGINT else st

/-- The function `sigtstp_handler`, lines 439-450. -/
def sigtstp_handler (st : Shell) : Shell :=
  if st.g_runningPid > 0 then kill st (-st.g_runningPid) Sig.SIGTSTP else st

/-- One delivery of a caught signal to the shell: which handler runs, and for
SIGCHLD what `waitpid` reports to it. -/
inductive HandlerCall
  | sigchld (reaped : List (Int × WStatus))
  | sigint
  | sigtstp
  deriving DecidableEq, Repr

/-- Run the handler of one delivered signal. -/
def runHandler (st : Shell) : HandlerCall → Shell
  | .sigchld reaped => sigchld_handler st reaped
  | .sigint => sigint_handler st
  | .sigtstp => sigtstp_handler st

/-- How a call of one of the shell's functions ends.
* `returned v st pending`: it returns `v` in state `st`; `pending` are the
  signal deliveries not yet consumed;
* `blocked st`: it is suspended in `sigsuspend` and no further signal arrives;
* `exited code st`: the shell process called `exit (code)`;
* `child args`: this is the forked child, which calls
  `execve (args[0], args, environ)` and never returns into the shell;
* `undefined`: the call has undefined behaviour in C. -/
inductive Outcome (α : Type)
  | returned (val : α) (st : Shell) (pending : List HandlerCall)
  | blocked (st : Shell)
  | exited (code : Int) (st : Shell)
  | child (args : List (List Char))
  | undefined
  deriving DecidableEq, Repr

/-- Replace the value a call returns. -/
def Outcome.withValue {α β : Type} (v : β) : Outcome α → Outcome β
  | .returned _ st pending => .returned v st pending
  | .blocked st => .blocked st
  | .exited code st => .exited code st
  | .child args => .child args
  | .undefined => .undefined

/-- The function `waitfg`, lines 293-301: `while (g_runningPid != 0)
sigsuspend (&prev);`.  Each `sigsuspend` returns after the handler of the next
delivered signal has run. -/
def waitfg (pid : Int) : Shell → List HandlerCall → Outcome Unit
  | st, [] => if st.g_runningPid ≠ 0 then .blocked st else .returned () st []
  | st, h :: rest =>
    if st.g_runningPid ≠ 0 then waitfg pid (runHandler st h) rest
    else .returned () st (h :: rest)

/-- An assignment `g_runningPid = v` in the main flow. -/
def setRunning (st : Shell) (v : Int) : Shell :=
  { st with g_runningPid := v, mainWrites := st.mainWrites ++ [⟨Slot.running, v, st.blocked⟩] }

/-- An assignment `g_suspendedPid = v` in the main flow. -/
def setSuspended (st : Shell) (v : Int) : Shell :=
  { st with g_suspendedPid := v, mainWrites := st.mainWrites ++ [⟨Slot.suspended, v, st.blocked⟩] }

/-- The state in which `builtin_cmd` calls `waitfg` for `fg`, lines 255-259. -/
def fgResume (st : Shell) : Shell :=
  let st1 := setRunning st st.g_suspendedPid
  let st2 := setSuspended st1 0
  kill st2 (-st2.g_runningPid) Sig.SIGCONT

/-- The function `builtin_cmd`, lines 241-267.  `args[0]` must not be NULL
(`strcmp` reads it). -/
def builtin_cmd (st : Shell) (args : List (List Char)) (sched : List HandlerCall) :
    Outcome Int :=
  match args with
  | [] => .undefined
  | arg0 :: _ =>
    if arg0 = "quit".toList then .exited 0 st
    else if arg0 = "fg".toList then
      if st.g_suspendedPid > 0 then
        (waitfg (fgResume st).g_runningPid (fgResume st) sched).withValue 1
      else .returned 1 st sched
    else .returned 0 st sched

/-- Lines 196-232 of `eval`, entered when the command is not a built-in.
`forked` is the value `fork ()` returns in this process. -/
def launch (st : Shell) (input : List Char) (args : List (List Char)) (bg : Bool)
    (forked : Int) (sched : List HandlerCall) : Outcome Unit :=
  let st1 : Shell := { st with prev := st.blocked, blocked := true }
  if forked < 0 then .exited (-1) st1
  else
    let st2 := setRunning st1 forked
    if st2.g_runningPid = 0 then .child args
    else
      let st3 : Shell := { st2 with blocked := st2.prev }
      if !bg then waitfg st3.g_runningPid st3 sched
      else
        .returned ()
          { st3 with out := st3.out ++
              ["(" ++ toString st3.g_runningPid ++ ") " ++ String.mk (cstr input)] }
          sched

/-- The function `eval`, lines 180-233.  `parseline` stores `argc + 1` entries
in `args[MAXARGS]`; storing more is undefined behaviour. -/
def eval (st : Shell) (input : List Char) (forked : Int) (sched : List HandlerCall) :
    Outcome Unit :=
  match parseTokens input with
  | none => .undefined
  | some toks =>
    if MAXARGS < toks.length + 1 then .undefined
    else
      let args := (finishParse toks).1
      let bg := (finishParse toks).2
      if args = [] then .returned () st sched
      else
        match builtin_cmd st args sched with
        | .returned v st1 pending =>
          if v ≠ 0 then .returned () st1 pending else launch st1 input args bg forked pending
        | .blocked s => .blocked s
        | .exited code s => .exited code s
        | .child a => .child a
        | .undefined => .undefined

/-! ## Definitions used to state the properties -/

/-- A shell with the given job slots and nothing else recorded. -/
def shellWith (running suspended : Int) : Shell :=
  ⟨running, suspended, false, false, [], [], []⟩

/-- The states the shell can be in between whole operations, starting from
the state in which `main` enters its loop: a returning call of `eval` whose
`fork` yields a positive id other than the one in the suspended slot, a
complete run of `sigchld_handler`, a returning call of `builtin_cmd` for `fg`,
and the two relay handlers. -/
inductive Reachable : Shell → Prop
  | init (blocked : Bool) : Reachable (Shell.init blocked)
  | eval {st st1 : Shell} (input : List Char) (forked : Int) (sched pending : List HandlerCall) :
      Reachable st → 0 < forked → forked ≠ st.g_suspendedPid →
      eval st input forked sched = Outcome.returned () st1 pending → Reachable st1
  | sigchld {st : Shell} (reaped : List (Int × WStatus)) :
      Reachable st → Reachable (sigchld_handler st reaped)
  | fg {st st1 : Shell} (rest : List (List Char)) (sched pending : List HandlerCall) (v : Int) :
      Reachable st →
      builtin_cmd st ("fg".toList :: rest) sched = Outcome.returned v st1 pending → Reachable st1
  | sigint {st : Shell} : Reachable st → Reachable (sigint_handler st)
  | sigtstp {st : Shell} : Reachable st → Reachable (sigtstp_handler st)

/-- The two slots do not hold the same non-zero id. -/
def SlotsDistinct (st : Shell) : Prop :=
  st.g_runningPid = st.g_suspendedPid → st.g_runningPid = 0

/-- The newline character that ends an input line. -/
def NEWLINE : Char := Char.ofNat 10

/-- A line of 128 one-letter arguments, 257 characters long. -/
def manyArgsLine : List Char :=
  (List.replicate 128 ['a', ' ']).flatten ++ [NEWLINE]

/-- A token as written on an input line: a plain run of characters, or a span
between single quotes (`s` is the content, without the quotes). -/
inductive Token
  | plain (s : List Char)
  | quoted (s : List Char)
  deriving DecidableEq, Repr

/-- The characters of a token as they stand on the line. -/
def Token.text : Token → List Char
  | .plain s => s
  | .quoted s => QUOTE :: (s ++ [QUOTE])

/-- The argument a token stands for: its text with the quotes of a quoted span
stripped. -/
def Token.arg : Token → List Char
  | .plain s => s
  | .quoted s => s

/-- A plain token is a non-empty run without space or single quote; the
content of a quoted span has no single quote.  No token holds a NUL, which
cannot occur inside a C string. -/
def Token.WellFormed : Token → Prop
  | .plain s => s ≠ [] ∧ ' ' ∉ s ∧ QUOTE ∉ s ∧ NUL ∉ s
  | .quoted s => QUOTE ∉ s ∧ NUL ∉ s

instance (t : Token) : Decidable t.WellFormed := by
  cases t <;> unfold Token.WellFormed <;> infer_instance

/-- The tokens of a line, each followed by the given number of spaces. -/
def layout : List (Token × Nat) → List Char
  | [] => []
  | it :: rest => it.1.text ++ (List.replicate it.2 ' ' ++ layout rest)

/-- Every token but the last is followed by at least one space. -/
def Separated (items : List (Token × Nat)) : Prop :=
  ∀ it ∈ items.dropLast, 1 ≤ it.2

instance (items : List (Token × Nat)) : Decidable (Separated items) := by
  unfold Separated; infer_instance

/-- The input line: `lead` spaces, the tokens with the spaces that follow
them, and the newline. -/
def inputLine (lead : Nat) (items : List (Token × Nat)) : List Char :=
  List.replicate lead ' ' ++ (layout items ++ [NEWLINE])

/-- The loop of `parseline` entered at `buf` before the spaces are skipped. -/
def parseFrom (fuel : Nat) (buf : List Char) (argv : List (List Char)) :
    Option (List (List Char)) :=
  parseLoop fuel (scanDelim (skipSpaces buf)).1 (scanDelim (skipSpaces buf)).2 argv

theorem strchr_skip (s t : List Char) (c : Char) (h : c ∉ s) :
    strchr (s ++ c :: t) c = some s.length := by
  induction s with
  | nil => simp [strchr]
  | cons x xs ih =>
    have hx : x ≠ c := fun e => h (e ▸ List.mem_cons_self _ _)
    have hxs : c ∉ xs := fun m => h (List.mem_cons_of_mem _ m)
    simp [strchr, hx, ih hxs]

theorem parseLoop_none (fuel : Nat) (buf : List Char) (argv : List (List Char)) :
    parseLoop fuel buf none argv = some argv := by
  cases fuel <;> rfl

theorem parseLoop_some (fuel : Nat) (buf : List Char) (d : Nat) (argv : List (List Char)) :
    parseLoop (fuel + 1) buf (some d) argv =
      parseFrom fuel (buf.drop (d + 1)) (argv ++ [buf.take d]) := rfl

theorem skipSpaces_replicate (k : Nat) (b : List Char) :
    skipSpaces (List.replicate k ' ' ++ b) = skipSpaces b := by
  induction k with
  | zero => rfl
  | succ k ih => simpa [List.replicate_succ, skipSpaces] using ih

theorem skipSpaces_of_head (c : Char) (cs : List Char) (h : c ≠ ' ') :
    skipSpaces (c :: cs) = c :: cs := by
  simp [skipSpaces, h]

theorem parseFrom_congr (fuel : Nat) (a b : List Char) (argv : List (List Char))
    (h : skipSpaces a = skipSpaces b) : parseFrom fuel a argv = parseFrom fuel b argv := by
  unfold parseFrom
  rw [h]

theorem cstr_of_not_mem (l : List Char) (h : NUL ∉ l) : cstr l = l := by
  induction l with
  | nil => rfl
  | cons c cs ih =>
    have hc : c ≠ NUL := fun e => h (e ▸ List.mem_cons_self _ _)
    have hcs : NUL ∉ cs := fun m => h (List.mem_cons_of_mem _ m)
    simp [cstr, hc, ih hcs]

theorem drop_past (s r : List Char) (x : Char) :
    (s ++ x :: r).drop (s.length + 1) = r := by
  induction s with
  | nil => rfl
  | cons c cs ih => simp [ih]

theorem text_head (t : Token) (h : t.WellFormed) :
    ∃ c cs, t.text = c :: cs ∧ c ≠ ' ' := by
  cases t with
  | plain s =>
    obtain ⟨hne, hsp, _, _⟩ := h
    cases s with
    | nil => exact absurd rfl hne
    | cons c cs =>
      exact ⟨c, cs, rfl, fun e => hsp (e ▸ List.mem_cons_self _ _)⟩
  | quoted s => exact ⟨QUOTE, s ++ [QUOTE], rfl, by decide⟩

theorem rest_starts_with_space (n : Nat) (rest : List (Token × Nat))
    (h : rest ≠ [] → 1 ≤ n) :
    ∃ r, List.replicate n ' ' ++ (layout rest ++ [' ']) = ' ' :: r ∧
      skipSpaces r = skipSpaces (layout rest ++ [' ']) := by
  cases n with
  | zero =>
    cases rest with
    | nil => exact ⟨[], rfl, rfl⟩
    | cons a as => exact absurd (h (by simp)) (by decide)
  | succ k =>
    exact ⟨List.replicate k ' ' ++ (layout rest ++ [' ']), by simp [List.replicate_succ],
      skipSpaces_replicate k _⟩

theorem parseFrom_layout (items : List (Token × Nat)) :
    (∀ it ∈ items, it.1.WellFormed) → Separated items →
    ∀ (fuel : Nat) (argv : List (List Char)), items.length ≤ fuel →
      parseFrom fuel (layout items ++ [' ']) argv =
        some (argv ++ items.map (fun it => it.1.arg)) := by
  induction items with
  | nil =>
    intro _ _ fuel argv _
    simp [parseFrom, layout, skipSpaces, scanDelim, parseLoop_none]
  | cons it rest ih =>
    intro hwf hsep fuel argv hfuel
    obtain ⟨t, n⟩ := it
    have hwft : t.WellFormed := hwf (t, n) (List.mem_cons_self _ _)
    have hwfr : ∀ it ∈ rest, it.1.WellFormed := fun it m => hwf it (List.mem_cons_of_mem _ m)
    have hn : rest ≠ [] → 1 ≤ n := by
      intro hr
      obtain ⟨b, bs, rfl⟩ := List.exists_cons_of_ne_nil hr
      exact hsep (t, n) (by simp [List.dropLast])
    have hsepr : Separated rest := by
      intro it m
      cases rest with
      | nil => simp at m
      | cons b bs => exact hsep it (by simp [List.dropLast] at m ⊢; exact Or.inr m)
    obtain ⟨r, hr, hskip⟩ := rest_starts_with_space n rest hn
    cases fuel with
    | zero => simp at hfuel
    | succ f =>
      have hf : rest.length ≤ f := by simpa using hfuel
      have hrec := ih hwfr hsepr f
      cases t with
      | plain s =>
        obtain ⟨hne, hsp, hq, _⟩ := hwft
        obtain ⟨c, cs, rfl⟩ := List.exists_cons_of_ne_nil hne
        have hc1 : c ≠ ' ' := fun e => hsp (e ▸ List.mem_cons_self _ _)
        have hc2 : c ≠ QUOTE := fun e => hq (e ▸ List.mem_cons_self _ _)
        have hbuf : layout ((Token.plain (c :: cs), n) :: rest) ++ [' '] =
            (c :: cs) ++ ' ' :: r := by
          simp only [layout, Token.text, List.append_assoc]
          rw [hr]
        have hfind : strchr ((c :: cs) ++ ' ' :: r) ' ' = some (c :: cs).length :=
          strchr_skip (c :: cs) r ' ' hsp
        rw [hbuf]
        unfold parseFrom
        have hsk : skipSpaces ((c :: cs) ++ ' ' :: r) = (c :: cs) ++ ' ' :: r :=
          skipSpaces_of_head c _ hc1
        rw [hsk]
        have hscan : scanDelim ((c :: cs) ++ ' ' :: r) =
            ((c :: cs) ++ ' ' :: r, some (c :: cs).length) := by
          rw [← hfind]
          simp [scanDelim, hc2]
        rw [hscan]
        simp only
        rw [parseLoop_some, List.take_left, drop_past]
        rw [parseFrom_congr f r _ _ hskip, hrec _ hf]
        simp [Token.arg]
      | quoted s =>
        obtain ⟨hq, _⟩ := hwft
        have hbuf : layout ((Token.quoted s, n) :: rest) ++ [' '] =
            QUOTE :: (s ++ QUOTE :: ' ' :: r) := by
          simp only [layout, Token.text, List.append_assoc, List.cons_append, List.nil_append]
          rw [hr]
        have hfind : strchr (s ++ QUOTE :: ' ' :: r) QUOTE = some s.length :=
          strchr_skip s _ QUOTE hq
        rw [hbuf]
        unfold parseFrom
        have hsk : skipSpaces (QUOTE :: (s ++ QUOTE :: ' ' :: r)) =
            QUOTE :: (s ++ QUOTE :: ' ' :: r) :=
          skipSpaces_of_head QUOTE _ (by decide)
        rw [hsk]
        have hscan : scanDelim (QUOTE :: (s ++ QUOTE :: ' ' :: r)) =
            (s ++ QUOTE :: ' ' :: r, some s.length) := by
          rw [← hfind]
          simp [scanDelim]
        rw [hscan]
        simp only
        rw [parseLoop_some, List.take_left, drop_past]
        have hskip2 : skipSpaces (' ' :: r) = skipSpaces (layout rest ++ [' ']) := by
          rw [← hskip]
          simp [skipSpaces]
        rw [parseFrom_congr f _ _ _ hskip2, hrec _ hf]
        simp [Token.arg]

theorem text_no_nul (t : Token) (h : t.WellFormed) : NUL ∉ t.text := by
  cases t with
  | plain s => exact h.2.2.2
  | quoted s =>
    have hq : NUL ≠ QUOTE := by decide
    simp [Token.text, h.2, hq]

theorem layout_no_nul (items : List (Token × Nat)) (hwf : ∀ it ∈ items, it.1.WellFormed) :
    NUL ∉ layout items := by
  induction items with
  | nil => simp [layout]
  | cons it rest ih =>
    have h1 := text_no_nul it.1 (hwf it (List.mem_cons_self _ _))
    have h2 := ih (fun x m => hwf x (List.mem_cons_of_mem _ m))
    have hs : NUL ≠ ' ' := by decide
    simp only [layout, List.mem_append, List.mem_replicate, not_or]
    exact ⟨h1, fun h => hs h.2, h2⟩

theorem layout_length (items : List (Token × Nat)) (hwf : ∀ it ∈ items, it.1.WellFormed) :
    items.length ≤ (layout items).length := by
  induction items with
  | nil => simp
  | cons it rest ih =>
    have h2 := ih (fun x m => hwf x (List.mem_cons_of_mem _ m))
    obtain ⟨c, cs, hc, _⟩ := text_head it.1 (hwf it (List.mem_cons_self _ _))
    simp only [layout, List.length_append, List.length_cons, hc]
    omega

theorem skipSpaces_layout (items : List (Token × Nat)) (hwf : ∀ it ∈ items, it.1.WellFormed)
    (hne : items ≠ []) (tail : List Char) :
    skipSpaces (layout items ++ tail) = layout items ++ tail := by
  obtain ⟨it, rest, rfl⟩ := List.exists_cons_of_ne_nil hne
  obtain ⟨c, cs, hc, hsp⟩ := text_head it.1 (hwf it (List.mem_cons_self _ _))
  simp only [layout, hc, List.cons_append]
  exact skipSpaces_of_head c _ hsp

theorem parseTokens_inputLine (lead : Nat) (items : List (Token × Nat))
    (hwf : ∀ it ∈ items, it.1.WellFormed) (hsep : Separated items)
    (hlen : (inputLine lead items).length < MAXLINE) :
    parseTokens (inputLine lead items) = some (items.map (fun it => it.1.arg)) := by
  have hnul : NUL ∉ inputLine lead items := by
    have h1 := layout_no_nul items hwf
    have hs : NUL ≠ ' ' := by decide
    have hn : NUL ≠ NEWLINE := by decide
    simp only [inputLine, List.mem_append, List.mem_replicate, List.mem_singleton, not_or]
    exact ⟨fun h => hs h.2, h1, hn⟩
  have hdrop : (inputLine lead items).dropLast ++ [' '] =
      List.replicate lead ' ' ++ (layout items ++ [' ']) := by
    have : inputLine lead items = (List.replicate lead ' ' ++ layout items) ++ [NEWLINE] := by
      simp [inputLine]
    rw [this, List.dropLast_concat, List.append_assoc]
  have hpos : ¬ ((inputLine lead items).length = 0 ∨ MAXLINE ≤ (inputLine lead items).length) := by
    have : 0 < (inputLine lead items).length := by simp [inputLine]
    omega
  unfold parseTokens
  simp only [cstr_of_not_mem _ hnul, if_neg hpos, hdrop]
  have hcongr := skipSpaces_replicate lead (layout items ++ [' '])
  rw [hcongr]
  have hfuel : items.length ≤ (skipSpaces (layout items ++ [' '])).length + 1 := by
    by_cases hne : items = []
    · simp [hne]
    · rw [skipSpaces_layout items hwf hne]
      have := layout_length items hwf
      simp only [List.length_append]
      omega
  have hcore := parseFrom_layout items hwf hsep _ [] hfuel
  unfold parseFrom at hcore
  simpa using hcore

theorem lastStartsWithAmp_eq (argv : List (List Char)) :
    lastStartsWithAmp argv = true ↔ ∃ last, argv.getLast? = some last ∧ last.head? = some '&' := by
  unfold lastStartsWithAmp
  cases hl : argv.getLast? with
  | none => simp
  | some last =>
    cases last with
    | nil => simp
    | cons c cs => simp

/-- C1 (amended): for every newline-terminated line that fits the line buffer
and is made of one or more tokens, preceded by any number of spaces, separated
by one or more spaces and followed by any number of spaces, where each token is
a non-empty run without space or single quote, or a single-quoted span whose
content has no single quote, and where the last token's argument (its text
with the quotes of a quoted span stripped) does not begin with `&`:
`parseline` yields exactly the tokens' arguments, in order, and returns
false. -/
theorem C1_tokens_of_formatted_line (lead : Nat) (items : List (Token × Nat))
    (hne : items ≠ []) (hwf : ∀ it ∈ items, it.1.WellFormed) (hsep : Separated items)
    (hamp : ∀ it, items.getLast? = some it → it.1.arg.head? ≠ some '&')
    (hlen : (inputLine lead items).length < MAXLINE) :
    parseline (inputLine lead items) = some (items.map (fun it => it.1.arg), false) := by
  unfold parseline
  rw [parseTokens_inputLine lead items hwf hsep hlen]
  have hlen0 : ¬ ((items.map (fun it => it.1.arg)).length = 0) := by
    simpa using hne
  have hno : ¬ (lastStartsWithAmp (items.map (fun it => it.1.arg)) = true) := by
    rw [lastStartsWithAmp_eq]
    rintro ⟨last, hl, hh⟩
    rw [List.getLast?_map] at hl
    cases hi : items.getLast? with
    | none => rw [hi] at hl; cases hl
    | some it =>
      rw [hi] at hl
      simp only [Option.map_some', Option.some.injEq] at hl
      exact hamp it hi (hl ▸ hh)
  simp only [Option.map_some', finishParse, if_neg hlen0, if_neg hno]

/-- C1 at the line `echo 'a b' c`. -/
theorem C1_tokens_of_formatted_line_witness :
    parseline "echo 'a b' c\n".toList =
      some (["echo".toList, "a b".toList, "c".toList], false) :=
  C1_tokens_of_formatted_line 0
    [(Token.plain "echo".toList, 1), (Token.quoted "a b".toList, 1), (Token.plain "c".toList, 0)]
    (by decide) (by decide) (by decide) (by decide) (by decide)

/-- C1 fails as stated: on the line `echo '&'` the last token is a quoted
span, whose text begins with a quote and not with `&`, yet `parseline` returns
true and yields `echo` alone instead of `echo` and `&` with false. -/
theorem C1_counterexample_quoted_ampersand :
    inputLine 0 [(Token.plain "echo".toList, 1), (Token.quoted "&".toList, 0)] =
      "echo '&'\n".toList ∧
    (Token.plain "echo".toList).WellFormed ∧ (Token.quoted "&".toList).WellFormed ∧
    Separated [(Token.plain "echo".toList, 1), (Token.quoted "&".toList, 0)] ∧
    (Token.quoted "&".toList).text.head? ≠ some '&' ∧
    "echo '&'\n".toList.length < MAXLINE ∧
    parseline "echo '&'\n".toList = some (["echo".toList], true) ∧
    parseline "echo '&'\n".toList ≠ some (["echo".toList, "&".toList], false) := by
  decide

/-- C2 (amended): for every line from which `parseline` produces at least one
argument, the returned flag is true if and only if the final argument begins
with the character `&` (in particular when it is exactly `&`); when it is true
that final argument is removed from the argument sequence, and when it is
false the sequence is left unchanged. -/
theorem C2_flag_iff_last_begins_with_ampersand (line : List Char)
    (toks : List (List Char)) (last : List Char)
    (htoks : parseTokens line = some toks) (hlast : toks.getLast? = some last) :
    ∃ args bg, parseline line = some (args, bg) ∧
      (bg = true ↔ last.head? = some '&') ∧
      (last = "&".toList → bg = true) ∧
      (bg = true → args = toks.dropLast) ∧
      (bg = false → args = toks) := by
  have hne : ¬ (toks.length = 0) := by
    intro h0
    have : toks = [] := List.length_eq_zero.mp h0
    rw [this] at hlast
    cases hlast
  have hiff : lastStartsWithAmp toks = true ↔ last.head? = some '&' := by
    rw [lastStartsWithAmp_eq]
    constructor
    · rintro ⟨l, hl, hh⟩
      rw [hlast] at hl
      cases hl
      exact hh
    · intro hh
      exact ⟨last, hlast, hh⟩
  unfold parseline
  rw [htoks]
  by_cases hb : lastStartsWithAmp toks = true
  · refine ⟨toks.dropLast, true, ?_, ?_, ?_, ?_, ?_⟩
    · simp [finishParse, hne, hb]
    · simpa using hiff.mp hb
    · intro _; rfl
    · intro _; rfl
    · intro h; cases h
  · refine ⟨toks, false, ?_, ?_, ?_, ?_, ?_⟩
    · simp [finishParse, hne, hb]
    · simpa using fun h => hb (hiff.mpr h)
    · intro h
      exact absurd (hiff.mpr (by rw [h]; rfl)) hb
    · intro h; cases h
    · intro _; rfl

/-- C2 at the line `sleep 5 &`. -/
theorem C2_flag_iff_last_begins_with_ampersand_witness :
    ∃ args bg, parseline "sleep 5 &\n".toList = some (args, bg) ∧
      (bg = true ↔ "&".toList.head? = some '&') ∧
      ("&".toList = "&".toList → bg = true) ∧
      (bg = true → args = ["sleep".toList, "5".toList, "&".toList].dropLast) ∧
      (bg = false → args = ["sleep".toList, "5".toList, "&".toList]) :=
  C2_flag_iff_last_begins_with_ampersand "sleep 5 &\n".toList
    ["sleep".toList, "5".toList, "&".toList] "&".toList (by decide) (by decide)

set_option maxRecDepth 100000 in
/-- C10: a line of 257 characters holding 128 arguments makes `parseline`
store 128 argument pointers, so that `argv[128] = NULL` is stored past the end
of the `MAXARGS`-entry array of `eval`, whose call is then undefined. -/
theorem C10_line_with_128_arguments_overflows_argv :
    manyArgsLine.length = 257 ∧ manyArgsLine.length ≤ MAXLINE - 1 ∧
    (parseTokens manyArgsLine).map List.length = some 128 ∧
    ¬ (128 ≤ MAXARGS - 1) ∧
    eval (Shell.init false) manyArgsLine 7 [] = Outcome.undefined := by
  refine ⟨by rfl, by decide, by rfl, by decide, by rfl⟩

/-- C2 fails as stated: on the line `a &b` the tokens are `a` and `&b`, the
last one is not the string `&`, yet `parseline` returns true and drops it. -/
theorem C2_counterexample_ampersand_prefix :
    parseTokens "a &b\n".toList = some ["a".toList, "&b".toList] ∧
    "&b".toList ≠ "&".toList ∧
    parseline "a &b\n".toList = some (["a".toList], true) := by
  decide

theorem reapOne_running (st : Shell) (w : Int) (ws : WStatus) :
    (reapOne st w ws).g_runningPid = 0 := by
  cases ws <;> rfl

theorem sigchld_handler_distinct (st : Shell) (reaped : List (Int × WStatus))
    (h : SlotsDistinct st) : SlotsDistinct (sigchld_handler st reaped) := by
  induction reaped generalizing st with
  | nil => exact h
  | cons r more ih =>
    obtain ⟨w, ws⟩ := r
    unfold sigchld_handler
    split
    · exact ih _ (fun _ => reapOne_running st w ws)
    · exact h

theorem sigint_handler_slots (st : Shell) :
    (sigint_handler st).g_runningPid = st.g_runningPid ∧
    (sigint_handler st).g_suspendedPid = st.g_suspendedPid := by
  unfold sigint_handler kill
  split <;> exact ⟨rfl, rfl⟩

theorem sigtstp_handler_slots (st : Shell) :
    (sigtstp_handler st).g_runningPid = st.g_runningPid ∧
    (sigtstp_handler st).g_suspendedPid = st.g_suspendedPid := by
  unfold sigtstp_handler kill
  split <;> exact ⟨rfl, rfl⟩

theorem runHandler_distinct (st : Shell) (h : HandlerCall) (hd : SlotsDistinct st) :
    SlotsDistinct (runHandler st h) := by
  cases h with
  | sigchld reaped => exact sigchld_handler_distinct st reaped hd
  | sigint =>
    have hs := sigint_handler_slots st
    unfold SlotsDistinct runHandler
    rw [hs.1, hs.2]; exact hd
  | sigtstp =>
    have hs := sigtstp_handler_slots st
    unfold SlotsDistinct runHandler
    rw [hs.1, hs.2]; exact hd

theorem waitfg_distinct (pid : Int) (st st1 : Shell) (sched pending : List HandlerCall)
    (hd : SlotsDistinct st) (h : waitfg pid st sched = Outcome.returned () st1 pending) :
    SlotsDistinct st1 := by
  induction sched generalizing st with
  | nil =>
    unfold waitfg at h
    split at h
    · cases h
    · cases h; exact hd
  | cons c rest ih =>
    unfold waitfg at h
    split at h
    · exact ih _ (runHandler_distinct st c hd) h
    · cases h; exact hd

theorem withValue_returned {α β : Type} (o : Outcome α) (v w : β) (st : Shell)
    (pending : List HandlerCall) (h : o.withValue v = Outcome.returned w st pending) :
    w = v ∧ ∃ u, o = Outcome.returned u st pending := by
  cases o <;> simp [Outcome.withValue] at h ⊢
  obtain ⟨h1, h2, h3⟩ := h
  exact ⟨h1.symm, h2, h3⟩

theorem fgResume_slots (st : Shell) :
    (fgResume st).g_runningPid = st.g_suspendedPid ∧ (fgResume st).g_suspendedPid = 0 ∧
    (fgResume st).kills = st.kills ++ [(-st.g_suspendedPid, Sig.SIGCONT)] ∧
    (fgResume st).out = st.out := ⟨rfl, rfl, rfl, rfl⟩

theorem builtin_cmd_distinct (st st1 : Shell) (args : List (List Char))
    (sched pending : List HandlerCall) (v : Int) (hd : SlotsDistinct st)
    (h : builtin_cmd st args sched = Outcome.returned v st1 pending) : SlotsDistinct st1 := by
  unfold builtin_cmd at h
  split at h
  · cases h
  · split at h
    · cases h
    · split at h
      · split at h
        · rename_i hpos
          obtain ⟨_, u, hu⟩ := withValue_returned _ _ _ _ _ h
          cases u
          refine waitfg_distinct _ (fgResume st) st1 sched pending ?_ hu
          intro heq
          rw [(fgResume_slots st).1, (fgResume_slots st).2.1] at heq
          omega
        · cases h; exact hd
      · cases h; exact hd

theorem launch_distinct (st st1 : Shell) (input : List Char) (args : List (List Char))
    (bg : Bool) (forked : Int) (sched pending : List HandlerCall)
    (hne : forked ≠ st.g_suspendedPid)
    (h : launch st input args bg forked sched = Outcome.returned () st1 pending) :
    SlotsDistinct st1 := by
  unfold launch at h
  simp only at h
  split at h
  · cases h
  · split at h
    · cases h
    · split at h
      · refine waitfg_distinct _ _ st1 sched pending ?_ h
        intro heq
        exact absurd heq hne
      · cases h
        intro heq
        exact absurd heq hne

theorem builtin_cmd_zero (st st1 : Shell) (args : List (List Char))
    (sched pending : List HandlerCall)
    (h : builtin_cmd st args sched = Outcome.returned 0 st1 pending) :
    st1 = st ∧ pending = sched := by
  unfold builtin_cmd at h
  split at h
  · cases h
  · split at h
    · cases h
    · split at h
      · split at h
        · have := (withValue_returned _ _ _ _ _ h).1
          omega
        · cases h
      · cases h; exact ⟨rfl, rfl⟩

theorem eval_distinct (st st1 : Shell) (input : List Char) (forked : Int)
    (sched pending : List HandlerCall) (hd : SlotsDistinct st)
    (hne : forked ≠ st.g_suspendedPid)
    (h : eval st input forked sched = Outcome.returned () st1 pending) : SlotsDistinct st1 := by
  unfold eval at h
  split at h
  · cases h
  · split at h
    · cases h
    · simp only at h
      split at h
      · cases h; exact hd
      · split at h
        · rename_i v st2 pending2 hb
          split at h
          · cases h
            exact builtin_cmd_distinct st st1 _ sched pending v hd hb
          · rename_i hv
            have hv0 : v = 0 := by simpa using hv
            subst hv0
            obtain ⟨hst, _⟩ := builtin_cmd_zero st st2 _ sched pending2 hb
            subst hst
            exact launch_distinct st2 st1 input _ _ forked pending2 pending hne h
        · cases h
        · cases h
        · cases h
        · cases h

/-! ## Properties of the job-control core -/

/-- C8: in every state reachable from the initial state by whole operations
(a returning `eval` whose forked child id is positive and differs from the
suspended slot, a complete `sigchld_handler` run over any list of reaped state
changes, the `fg` built-in, the interrupt and suspend relays), the foreground
slot and the suspended slot do not hold the same non-zero id. -/
theorem C8_slots_never_share_a_job (st : Shell) (h : Reachable st) :
    ¬ (st.g_runningPid = st.g_suspendedPid ∧ st.g_runningPid ≠ 0) := by
  have key : SlotsDistinct st := by
    induction h with
    | init blocked => intro _; rfl
    | eval input forked sched pending _ _ hne hev ih =>
      exact eval_distinct _ _ input forked sched pending ih hne hev
    | sigchld reaped _ ih => exact sigchld_handler_distinct _ reaped ih
    | fg rest sched pending v _ hb ih =>
      exact builtin_cmd_distinct _ _ _ sched pending v ih hb
    | sigint _ ih =>
      have hs := sigint_handler_slots ‹Shell›
      unfold SlotsDistinct
      rw [hs.1, hs.2]; exact ih
    | sigtstp _ ih =>
      have hs := sigtstp_handler_slots ‹Shell›
      unfold SlotsDistinct
      rw [hs.1, hs.2]; exact ih
  intro hboth
  exact hboth.2 (key hboth.1)

/-- C8 at a concrete run: job 5 is launched in the foreground, suspended from
the keyboard and reported stopped; the state then reached has the foreground
slot empty and job 5 in the suspended slot. -/
theorem C8_slots_never_share_a_job_witness :
    Reachable ⟨0, 5, false, false, ["Job (5) stopped by signal 20\n"],
        [(-5, Sig.SIGTSTP)], [⟨Slot.running, 5, true⟩]⟩ ∧
      ¬ ((0 : Int) = 5 ∧ (0 : Int) ≠ 0) :=
  have hr : Reachable ⟨0, 5, false, false, ["Job (5) stopped by signal 20\n"],
      [(-5, Sig.SIGTSTP)], [⟨Slot.running, 5, true⟩]⟩ :=
    Reachable.eval "/bin/vi\n".toList 5
      [HandlerCall.sigtstp, HandlerCall.sigchld [(5, WStatus.stopped 20)]] []
      (Reachable.init false) (by decide) (by decide) (by rfl)
  ⟨hr, C8_slots_never_share_a_job _ hr⟩

/-- C5: when the foreground slot holds `p > 0` and one run of
`sigchld_handler` reaps exactly one state change, child `p` stopped by signal
`n` (the next `waitpid` result, if any, is not positive), then on return the
foreground slot is 0, the suspended slot holds `p`, exactly the line
`Job (p) stopped by signal n` has been printed, and nothing else changed. -/
theorem C5_stopped_foreground_job_is_suspended (st : Shell) (p n : Int)
    (more : List (Int × WStatus)) (hp : 0 < p) (hfg : st.g_runningPid = p)
    (hend : ∀ r, more.head? = some r → r.1 ≤ 0) :
    sigchld_handler st ((p, WStatus.stopped n) :: more) =
      { st with
          g_runningPid := 0
          g_suspendedPid := p
          out := st.out ++
            ["Job (" ++ toString p ++ ") stopped by signal " ++ toString n ++ "\n"] } := by
  have hstop : ∀ s : Shell, sigchld_handler s more = s := by
    intro s
    cases more with
    | nil => rfl
    | cons r tl =>
      have hr := hend r rfl
      obtain ⟨w, ws⟩ := r
      unfold sigchld_handler
      rw [if_neg (by simpa using hr)]
  unfold sigchld_handler
  rw [if_pos hp, hstop]
  subst hfg
  rfl

/-- C5 for job 5 stopped by signal 20 while it is the foreground job. -/
theorem C5_stopped_foreground_job_is_suspended_witness :
    sigchld_handler (shellWith 5 0) [(5, WStatus.stopped 20)] =
      ⟨0, 5, false, false, ["Job (5) stopped by signal 20\n"], [], []⟩ :=
  C5_stopped_foreground_job_is_suspended (shellWith 5 0) 5 20 [] (by decide) rfl
    (fun _ h => by cases h)

/-- C3: with job 5 in the foreground slot, a run of `sigchld_handler` that
reaps only child 7 (a background job that exited) leaves the foreground slot
0, not 5, and `waitfg (5)` returns on that delivery; reaping only child 7
stopped also moves 5 into the suspended slot.  The same through `eval`:
after job 7 was launched in the background, the foreground launch of job 5
returns as soon as the exit of job 7 is reported. -/
theorem C3_reaping_another_child_clears_foreground :
    (7 : Int) ≠ 5 ∧
    (sigchld_handler (shellWith 5 0) [(7, WStatus.exited 0)]).g_runningPid = 0 ∧
    waitfg 5 (shellWith 5 0) [HandlerCall.sigchld [(7, WStatus.exited 0)]] =
      Outcome.returned () (shellWith 0 0) [] ∧
    sigchld_handler (shellWith 5 0) [(7, WStatus.stopped 19)] =
      ⟨0, 5, false, false, ["Job (7) stopped by signal 19\n"], [], []⟩ ∧
    eval ⟨7, 0, false, false, ["(7) /bin/sleep 9 &\n"], [], [⟨Slot.running, 7, true⟩]⟩
        "/bin/vi\n".toList 5 [HandlerCall.sigchld [(7, WStatus.exited 0)]] =
      Outcome.returned ()
        ⟨0, 0, false, false, ["(7) /bin/sleep 9 &\n"], [],
          [⟨Slot.running, 7, true⟩, ⟨Slot.running, 5, true⟩]⟩ [] := by
  refine ⟨by decide, by decide, by decide, by decide, by rfl⟩

/-- C4: `eval` of a background command line whose `fork` yields child 7
returns with 7 in the foreground slot, and the interrupt relay run in that
state sends SIGINT to process group 7. -/
theorem C4_background_launch_fills_foreground_slot :
    eval (Shell.init false) "/bin/sleep 9 &\n".toList 7 [] =
      Outcome.returned ()
        ⟨7, 0, false, false, ["(7) /bin/sleep 9 &\n"], [], [⟨Slot.running, 7, true⟩]⟩ [] ∧
    (sigint_handler
        ⟨7, 0, false, false, ["(7) /bin/sleep 9 &\n"], [], [⟨Slot.running, 7, true⟩]⟩).kills =
      [(-7, Sig.SIGINT)] ∧
    (sigtstp_handler
        ⟨7, 0, false, false, ["(7) /bin/sleep 9 &\n"], [], [⟨Slot.running, 7, true⟩]⟩).kills =
      [(-7, Sig.SIGTSTP)] := by
  refine ⟨by rfl, by decide, by decide⟩

/-- C9: job 5 is launched in the foreground and stopped from the keyboard;
`eval` of the line `fg` then assigns both slots while SIGCHLD is not in the
signal mask, unlike the launcher, whose assignment was made with it blocked. -/
theorem C9_fg_assigns_slots_with_sigchld_unblocked :
    eval (Shell.init false) "/bin/vi\n".toList 5
        [HandlerCall.sigtstp, HandlerCall.sigchld [(5, WStatus.stopped 20)]] =
      Outcome.returned ()
        ⟨0, 5, false, false, ["Job (5) stopped by signal 20\n"], [(-5, Sig.SIGTSTP)],
          [⟨Slot.running, 5, true⟩]⟩ [] ∧
    eval ⟨0, 5, false, false, ["Job (5) stopped by signal 20\n"], [(-5, Sig.SIGTSTP)],
          [⟨Slot.running, 5, true⟩]⟩ "fg\n".toList 6
        [HandlerCall.sigchld [(5, WStatus.exited 0)]] =
      Outcome.returned ()
        ⟨0, 0, false, false, ["Job (5) stopped by signal 20\n"],
          [(-5, Sig.SIGTSTP), (-5, Sig.SIGCONT)],
          [⟨Slot.running, 5, true⟩, ⟨Slot.running, 5, false⟩, ⟨Slot.suspended, 0, false⟩]⟩
        [] := by
  refine ⟨by rfl, by rfl⟩

end Tsh
